import Mathlib

/-!
Shallow embedding of the mojave_ufo Framer component collection.

The repository is a set of near-duplicate React components that resolve a
Spline scene URL from a GitHub Pages base, probe candidate URLs, gate
mounting of a WebGL viewer, and sequence the poster-to-canvas reveal.
Each definition below is translated from the TypeScript/JavaScript source;
the file or variant it comes from is named in the doc comment.
-/

namespace MojaveUfo

/-- JS truthy-or on strings: `a || b` where the empty string is falsy.
Used throughout the variants, e.g. `ghUrl || splineProdUrl`. -/
def jsOr (a b : String) : String := if a = "" then b else a

/-- Modelled from JS `String.prototype.trim`: drop whitespace from both
ends (the JS whitespace class is approximated by `Char.isWhitespace`). -/
def jsTrim (s : String) : String :=
  ⟨(((s.data.dropWhile Char.isWhitespace).reverse.dropWhile
      Char.isWhitespace).reverse)⟩

/-- Modelled from JS `String.prototype.toLowerCase` (ASCII case map). -/
def jsToLower (s : String) : String := ⟨s.data.map Char.toLower⟩

/-- JS `String.prototype.endsWith`. -/
def jsEndsWith (s suffix : String) : Bool := List.isSuffixOf suffix.data s.data

/-- JS `String.prototype.startsWith`. -/
def jsStartsWith (s p : String) : Bool := List.isPrefixOf p.data s.data

/-- Drop the first `n` characters (JS `slice(n)` for a known prefix). -/
def dropFirstChars (s : String) (n : Nat) : String := ⟨s.data.drop n⟩

/-- Drop the last `n` characters. -/
def dropLastChars (s : String) (n : Nat) : String :=
  ⟨s.data.take (s.data.length - n)⟩

/-- JS `String.prototype.split` with a single-character separator, on
character lists. -/
def splitChar (sep : Char) : List Char → List (List Char)
  | [] => [[]]
  | c :: rest =>
    let r := splitChar sep rest
    if c = sep then [] :: r
    else
      match r with
      | [] => [[c]]
      | h :: t => (c :: h) :: t

/-- JS `String.prototype.split` with a single-character separator. -/
def jsSplit (s : String) (sep : Char) : List String :=
  (splitChar sep s.data).map (fun l => ⟨l⟩)

/-! Section: Breakpoint classifier (src/unnamed/part_000 lines 69-80, part_004 lines 74-84) -/

/-- Breakpoint bucket, from the union type in the source. -/
inductive Bp
  | mobile
  | tablet
  | desktop
deriving DecidableEq, Repr

/-- Translation of the resize handler body
`setBp(w <= 640 ? "mobile" : w <= 1024 ? "tablet" : "desktop")`
from part_000 line 73 (identical in part_004 line 78).  The measured
`window.innerWidth` is modelled as a rational. -/
def setBp (w : ℚ) : Bp :=
  if w ≤ 640 then .mobile else if w ≤ 1024 then .tablet else .desktop

/-- Claim C3's tie-breaking clause as stated: at the exact threshold values
the classifier picks the larger bucket. -/
def c3TieTowardLarger : Prop := setBp 640 = Bp.tablet ∧ setBp 1024 = Bp.desktop

/-! Section: Candidate URL join (part_000 lines 83-86, part_001 129-133, part_004 85-88) -/

/-- Regex replace `/\/+$/` with `""`: remove every trailing slash.
From `(gitHubBaseUrl || "").replace(/\/+$/, "")`; `(s || "")` is the
identity on strings since `"" || "" === ""`. -/
def stripTrailingSlashes (s : String) : String :=
  ⟨((s.data.reverse.dropWhile (· = '/')).reverse)⟩

/-- Regex replace `/^\/+/` with `""`: remove every leading slash.
From `(sceneFile || "").replace(/^\/+/, "")`. -/
def stripLeadingSlashes (s : String) : String :=
  ⟨s.data.dropWhile (· = '/')⟩

/-- The `ghUrl` memo: `base + file` where
`base = (gitHubBaseUrl || "").replace(/\/+$/, "") + "/"` and
`file = (sceneFile || "").replace(/^\/+/, "")`. -/
def ghUrlJoin (base file : String) : String :=
  stripTrailingSlashes base ++ "/" ++ stripLeadingSlashes file

/-! Section: Preflight probe and resolution (part_001 lines 136-187; the same
effect appears in part_000 lines 92-132 and part_004 lines 93-110) -/

/-- Outcome of the two network requests a probe may issue for one URL.
`headR`/`getR` are `none` when the `fetch` call throws, `some b` when it
returns a response with `ok = b`. -/
structure ProbeOut where
  headR : Option Bool
  getR : Option Bool
deriving DecidableEq, Repr

/-- The `ok(url)` helper: try `fetch(url, {method:"HEAD", cache:"no-store"})`
and return true when it resolves ok; otherwise try the GET request and
return its `ok`, or false when the GET throws. -/
def probeOk (o : ProbeOut) : Bool :=
  match o.headR with
  | some true => true
  | _ =>
    match o.getR with
    | some g => g
    | none => false

/-- Diagnostic string built in the all-candidates-failed branch:
`` `Could not load: ${ghUrl || splineProdUrl || "(no url)"}` ``. -/
def couldNotLoad (gh prod : String) : String :=
  "Could not load: " ++ jsOr gh (jsOr prod "(no url)")

/-- The resolution effect body as a function of the probe oracle.
Returns `(resolvedUrl, error)` as finally written by the run (part_001
lines 163-182).  Candidates are attempted in order: the derived GitHub
URL when non-empty, then the configured fallback when non-empty. -/
def resolveOutcome (preflight : Bool) (gh prod : String)
    (probe : String → ProbeOut) : String × String :=
  if !preflight then (jsOr gh prod, "")
  else if gh != "" && probeOk (probe gh) then (gh, "")
  else if prod != "" && probeOk (probe prod) then (prod, "")
  else (jsOr (jsOr gh prod) "", couldNotLoad gh prod)

/-- The ordered candidate list the effect actually probes: the derived
GitHub URL first, then the fallback, skipping empty strings (JS truthiness
guards `ghUrl && ...` / `splineProdUrl && ...`). -/
def candidatesOf (gh prod : String) : List String :=
  (if gh != "" then [gh] else []) ++ (if prod != "" then [prod] else [])

/-- Spec-side description of resolution for the refinement comparison in
claim C1: the first candidate whose probe succeeds. -/
def specFirstSuccess (gh prod : String) (probe : String → ProbeOut) :
    Option String :=
  (candidatesOf gh prod).find? (fun c => probeOk (probe c))

/-- Substring test on character lists: `needle` occurs contiguously in
`hay`. -/
def containsList (needle hay : List Char) : Bool :=
  hay.tails.any (fun t => needle.isPrefixOf t)

/-- Substring test on strings, used to express "the diagnostic names the
URL". -/
def strContains (hay needle : String) : Bool :=
  containsList needle.data hay.data

/-- What the component renders (part_001 lines 238-266): the error box when
`error` is non-empty, the viewer when in view with a resolved URL, and
nothing (a blank area) otherwise. -/
inductive View
  | errorBox (message diagnostic : String)
  | viewer (url : String)
  | blank
deriving DecidableEq, Repr

/-- The JSX branch
`error ? <fallback+error> : inView && resolvedUrl ? <Spline> : null`. -/
def renderView (fallbackMessage errorText : String) (inView : Bool)
    (resolvedUrl : String) : View :=
  if errorText != "" then .errorBox fallbackMessage errorText
  else if inView && resolvedUrl != "" then .viewer resolvedUrl
  else .blank

/-- Claim C5's diagnostic clause as stated: when every candidate probe
fails, the error text contains the last-attempted candidate URL. -/
def c5NamesLastAttempted : Prop :=
  ∀ gh prod : String, ∀ probe : String → ProbeOut,
    (∀ c ∈ candidatesOf gh prod, probeOk (probe c) = false) →
    ∀ last ∈ (candidatesOf gh prod).getLast?,
      strContains (resolveOutcome true gh prod probe).2 last = true

/-! Section: Stale-run cancellation (claim C6)

The preflight effect (part_001 lines 136-187) is an async IIFE guarded by a
per-run `cancelled` flag; the effect cleanup sets `cancelled = true` before
the next run's effect body starts.  An async function body executes
synchronously up to its first `await`, so every write the body performs
before an `await` happens while the run is still current.  We model one
run as the list of write batches it performs, indexed by suspension
points: batch 0 runs synchronously at effect start, batch `k ≥ 1` runs
when the `k`-th `await` resumes.  A probe (`ok(url)`) suspends on its
`fetch` calls but performs no state writes in between, so each probe is
collapsed to a single suspension point. -/

/-- Which React state cell a write targets. -/
inductive RField
  | resolved
  | error
deriving DecidableEq, Repr

/-- One `setResolvedUrl`/`setError` call: the target cell, the value, and
whether the call is wrapped in `if (!cancelled)` in the source. -/
structure WAct where
  field : RField
  value : String
  guarded : Bool
deriving DecidableEq, Repr

/-- The inputs of one effect run: props at the time the run started plus
the outcome of each probe the run would perform. -/
structure RunSpec where
  preflight : Bool
  ghUrl : String
  prodUrl : String
  ghOk : Bool
  prodOk : Bool
deriving DecidableEq, Repr

instance : Inhabited RunSpec := ⟨⟨true, "", "", false, false⟩⟩

/-- Write batches of one run, read off the effect body (part_001 lines
136-187).  Batch 0 always begins with the synchronous resets
`setError(""); setResolvedUrl("")`.  The preflight-disabled branch writes
synchronously with no guard (line 165); every write after an `await`
carries the `if (!cancelled)` guard. -/
def runSegs (r : RunSpec) : List (List WAct) :=
  let pre : List WAct := [⟨.error, "", false⟩, ⟨.resolved, "", false⟩]
  let failWrites : List WAct :=
    [⟨.resolved, jsOr (jsOr r.ghUrl r.prodUrl) "", true⟩,
     ⟨.error, couldNotLoad r.ghUrl r.prodUrl, true⟩]
  if !r.preflight then
    [pre ++ [⟨.resolved, jsOr r.ghUrl r.prodUrl, false⟩]]
  else if r.ghUrl != "" then
    if r.ghOk then [pre, [⟨.resolved, r.ghUrl, true⟩]]
    else if r.prodUrl != "" then
      if r.prodOk then [pre, [], [⟨.resolved, r.prodUrl, true⟩]]
      else [pre, [], failWrites]
    else [pre, failWrites]
  else if r.prodUrl != "" then
    if r.prodOk then [pre, [⟨.resolved, r.prodUrl, true⟩]]
    else [pre, failWrites]
  else [pre ++ failWrites]

/-- One recorded write: which run performed it, how many runs had been
started at that moment, and the write itself. -/
structure C6Entry where
  runIdx : Nat
  startedAt : Nat
  act : WAct
deriving DecidableEq, Repr

/-- Interleaving state: how many runs have started (runs start in mount
order, and run `i`'s cleanup has set its `cancelled` flag exactly when
`startedCount > i + 1`), each run's next batch index, the two React state
cells, and the history of performed writes. -/
structure C6St where
  startedCount : Nat
  pc : Nat → Nat
  resolvedUrl : String
  errorText : String
  hist : List C6Entry

/-- Perform one write batch for run `i`: unguarded writes always land;
guarded ones land only when the run's `cancelled` flag is still false. -/
def execSeg (i started : Nat) (cancelled : Bool) (acts : List WAct)
    (st : C6St) : C6St :=
  acts.foldl
    (fun s a =>
      if a.guarded && cancelled then s
      else
        { s with
          resolvedUrl := if a.field = .resolved then a.value else s.resolvedUrl
          errorText := if a.field = .error then a.value else s.errorText
          hist := s.hist ++ [⟨i, started, a⟩] })
    st

/-- Advance the interleaving by one scheduler choice `c`:
starting the next run (its batch 0 runs synchronously, after the previous
run's cleanup has marked it cancelled), or resuming an already-started
run at its next suspension point. -/
def stepC6 (rs : List RunSpec) (c : Nat) (st : C6St) : C6St :=
  if c = st.startedCount ∧ c < rs.length then
    execSeg c (c + 1) false ((runSegs (rs.getD c default)).getD 0 [])
      { st with startedCount := c + 1,
                pc := fun j => if j = c then 1 else st.pc j }
  else if c < st.startedCount then
    if st.pc c < (runSegs (rs.getD c default)).length then
      execSeg c st.startedCount (decide (c + 1 < st.startedCount))
        ((runSegs (rs.getD c default)).getD (st.pc c) [])
        { st with pc := fun j => if j = c then st.pc c + 1 else st.pc j }
    else st
  else st

/-- Initial interleaving state: nothing started, cells empty. -/
def c6Init : C6St := ⟨0, fun _ => 0, "", "", []⟩

/-- Run an arbitrary scheduler-choice sequence over the runs. -/
def execC6 (rs : List RunSpec) (choices : List Nat) : C6St :=
  choices.foldl (fun st c => stepC6 rs c st) c6Init

/-- A history entry is fresh if, at the moment the write landed, no run
younger than its own had started. -/
def entryFresh (e : C6Entry) : Bool := decide (e.startedAt ≤ e.runIdx + 1)

/-! Section: Reveal sequencer (claim C2; src/SelfHostedSpline.tsx lines 385-479)

The effect wires `onLoadAny` to the viewer's `load-complete` event and a
4-second fallback timeout that runs `onLoadAny(); revealSafely()`.  The
model is an event-driven small-step machine: browser-dispatched
occurrences (`load-complete`, the fallback timer, an animation frame, the
`playTimer` firing) drive handlers that emit primitive viewer actions and
schedule `requestAnimationFrame` continuations for the next frame.  Each
occurrence carries the container's size check `r.width > 1 && r.height > 1`
as a boolean.  The wall-clock guard window (`Date.now() > guardUntil`) is
abstracted to a frame budget `guardFrames`, and `postPlayFreezeFrames`
is the source's per-variant constant. -/

/-- Primitive actions performed against the viewer element, plus the
`setReady(true)` state write. -/
inductive Act
  | pause
  | setTime0
  | render
  | setReady
  | play
deriving DecidableEq, Repr

/-- Pending `requestAnimationFrame` continuations, one constructor per
callback closure in the source: `waitForSize`, `startSequence`, the
`raf1`/`raf2`/`raf3` bodies, the freeze `guard`, and `holdFewFrames`. -/
inductive Cont
  | waitSize
  | startSeq
  | raf1
  | raf2
  | raf3
  | guardC (n : Nat)
  | holdC (n : Nat)
deriving DecidableEq, Repr

/-- External occurrences driving the effect.  The boolean is the result of
the `getBoundingClientRect` size check at that moment. -/
inductive REv
  | load (big : Bool)
  | timeout (big : Bool)
  | frame (big : Bool)
  | timerFire
deriving DecidableEq, Repr

/-- Per-variant constants of the sequence (desktop: small guard budget and
`postPlayFreezeFrames = 2`; mobile: larger ones). -/
structure RParams where
  guardFrames : Nat
  postPlayFrames : Nat
deriving DecidableEq, Repr

/-- Effect-local state: the one-shot `handled` and `done` flags, whether
`playTimer` is pending, the rAF queue for the next frame, and the emitted
action log (chronological, oldest first). -/
structure RSt where
  handled : Bool
  done : Bool
  timerSet : Bool
  queue : List Cont
  log : List Act
deriving DecidableEq, Repr

/-- `revealSafely`: one-shot `setReady(true)`. -/
def revealSafelyM (s : RSt) : RSt :=
  if s.done then s else { s with done := true, log := s.log ++ [.setReady] }

/-- `onLoadAny`: one-shot; runs `waitForSize` synchronously, which checks
the current size and schedules either `startSequence` or itself for the
next animation frame. -/
def onLoadAnyM (big : Bool) (s : RSt) : RSt :=
  if s.handled then s
  else { s with handled := true,
                queue := s.queue ++ [if big then .startSeq else .waitSize] }

/-- Keep every continuation except the freeze guard
(`cancelAnimationFrame(guardRaf)`). -/
def notGuard : Cont → Bool
  | .guardC _ => false
  | _ => true

/-- Run one rAF continuation during a frame with size check `big`,
emitting actions and scheduling continuations for the next frame. -/
def runCont (p : RParams) (big : Bool) (c : Cont) (s : RSt) : RSt :=
  match c with
  | .waitSize =>
    { s with queue := s.queue ++ [if big then .startSeq else .waitSize] }
  | .startSeq =>
    { s with log := s.log ++ [.pause, .setTime0, .render],
             queue := s.queue ++ [.guardC p.guardFrames, .raf1] }
  | .raf1 =>
    { s with log := s.log ++ [.setTime0, .render], queue := s.queue ++ [.raf2] }
  | .raf2 =>
    let s' := revealSafelyM s
    { s' with queue := s'.queue ++ [.raf3] }
  | .raf3 => { s with timerSet := true }
  | .guardC 0 => s
  | .guardC (n + 1) =>
    { s with log := s.log ++ [.pause, .setTime0, .render],
             queue := s.queue ++ [.guardC n] }
  | .holdC 0 => s
  | .holdC (n + 1) =>
    { s with log := s.log ++ [.setTime0], queue := s.queue ++ [.holdC n] }

/-- Run the continuations queued for this frame, in order. -/
def runConts (p : RParams) (big : Bool) : List Cont → RSt → RSt
  | [], s => s
  | c :: cs, s => runConts p big cs (runCont p big c s)

/-- Process one external occurrence:
`load-complete` runs `onLoadAny`; the fallback timeout runs
`onLoadAny(); revealSafely()`; an animation frame flushes the rAF queue;
the play timer starts playback, cancels the guard, and schedules
`holdFewFrames`. -/
def stepR (p : RParams) (e : REv) (s : RSt) : RSt :=
  match e with
  | .load big => onLoadAnyM big s
  | .timeout big => revealSafelyM (onLoadAnyM big s)
  | .frame big => runConts p big s.queue { s with queue := [] }
  | .timerFire =>
    if s.timerSet then
      { s with timerSet := false,
               log := s.log ++ [.play, .setTime0],
               queue := s.queue.filter notGuard ++ [.holdC p.postPlayFrames] }
    else s

/-- Initial effect state. -/
def rInit : RSt := ⟨false, false, false, [], []⟩

/-- Run the reveal effect over a sequence of occurrences. -/
def runReveal (p : RParams) (evs : List REv) : RSt :=
  evs.foldl (fun s e => stepR p e s) rInit

/-- Scan the action log from the start: true when the first render/ready
marker encountered is a render, or no marker occurs at all. -/
def readyOk : List Act → Bool
  | [] => true
  | .render :: _ => true
  | .setReady :: _ => false
  | _ :: t => readyOk t

/-- The log starts (marker-wise) with a render: a render occurs and
precedes every `setReady`. -/
def renderFirst : List Act → Bool
  | [] => false
  | .render :: _ => true
  | .setReady :: _ => false
  | _ :: t => renderFirst t

/-- The log contains neither a render nor a `setReady`. -/
def noMark (l : List Act) : Bool :=
  l.all (fun a => !(a = .render || a = .setReady))

/-- True for every occurrence except the fallback timeout. -/
def notTimeoutEv : REv → Bool
  | .timeout _ => false
  | _ => true

/-- True exactly for the fallback-timeout occurrence. -/
def isTimeoutEv : REv → Bool
  | .timeout _ => true
  | _ => false

/-- Claim C2 as stated: in every run, `setReady` is only ever emitted after
an explicit render, and once the fallback timeout has fired the ready flag
is set. -/
def c2Statement : Prop :=
  ∀ p : RParams, ∀ evs : List REv,
    readyOk (runReveal p evs).log = true ∧
    (evs.any isTimeoutEv = true → (runReveal p evs).done = true)

/-! Section: Scene-URL derivation (claim C4; src/SelfHostedSpline.tsx lines 39-100) -/

/-- The pieces of a parsed URL the derivation reads. -/
structure JsURL where
  hostname : String
  pathname : String
  origin : String
deriving DecidableEq, Repr

/-- Modelled from JS `new URL(t)` for absolute http/https URLs, the only
scheme family the derivation's hostname tests can match.  Returns `none`
where the constructor would throw (no scheme or empty host); the hostname
is lowercased as the URL parser does, the origin keeps any port, and the
pathname is the part before any query or fragment, defaulting to "/". -/
def parseURL (s : String) : Option JsURL :=
  let run : String → String → Option JsURL := fun scheme rest =>
    let hostport : String :=
      ⟨rest.data.takeWhile (fun c => c ≠ '/' && c ≠ '?' && c ≠ '#')⟩
    let tail : List Char :=
      rest.data.dropWhile (fun c => c ≠ '/' && c ≠ '?' && c ≠ '#')
    if hostport = "" then none
    else
      let path : List Char := tail.takeWhile (fun c => c ≠ '?' && c ≠ '#')
      some { hostname := ⟨(jsToLower hostport).data.takeWhile (· ≠ ':')⟩
             pathname := if path = [] then "/" else ⟨path⟩
             origin := scheme ++ jsToLower hostport }
  if jsStartsWith s "https://" then run "https://" (dropFirstChars s 8)
  else if jsStartsWith s "http://" then run "http://" (dropFirstChars s 7)
  else none

/-- Regex replace `/^\/|\/$/g`: remove one leading and one trailing slash,
as applied to `u.pathname` in the derivation helpers. -/
def stripOneEdgeSlash (s : String) : String :=
  let s1 := if jsStartsWith s "/" then dropFirstChars s 1 else s
  if jsEndsWith s1 "/" then dropLastChars s1 1 else s1

/-- Regex replace `/\.git$/i`: drop a trailing ".git" (case-insensitive). -/
def stripGitSuffix (s : String) : String :=
  if jsEndsWith (jsToLower s) ".git" then dropLastChars s 4 else s

/-- JS truthiness of the destructured `const [o, r] = parts`:
`o && r` holds when both parts exist and are non-empty. -/
def firstTwoNonEmpty (parts : List String) : Option (String × String) :=
  let o := parts.getD 0 ""
  let r := parts.getD 1 ""
  if o != "" && r != "" then some (o, r) else none

/-- `deriveVariantSceneUrlFromRepo` (SelfHostedSpline.tsx lines 75-100):
trims the repo URL, honours a direct `.splinecode` location verbatim, and
otherwise derives `<pages-site>/<variant file>` from a `git@`, github.com
or github.io reference.  `mobile` selects `scene-mobile.splinecode` over
`scene-desktop.splinecode`. -/
def deriveVariantSceneUrlFromRepo (repoUrl : Option String) (mobile : Bool) :
    Option String :=
  match repoUrl with
  | none => none
  | some ru =>
    let t := jsTrim ru
    if t = "" then none
    else if jsEndsWith (jsToLower t) ".splinecode" then some t
    else
      let filename :=
        if mobile then "scene-mobile.splinecode" else "scene-desktop.splinecode"
      if jsStartsWith t "git@github.com:" then
        match firstTwoNonEmpty
            (jsSplit (stripGitSuffix (dropFirstChars t 15)) '/') with
        | some (o, r) =>
          some ("https://" ++ o ++ ".github.io/" ++ r ++ "/" ++ filename)
        | none => none
      else
        match parseURL t with
        | none => none
        | some u =>
          if u.hostname = "github.com" then
            match firstTwoNonEmpty (jsSplit (stripOneEdgeSlash u.pathname) '/') with
            | some (o, r) =>
              some ("https://" ++ o ++ ".github.io/" ++ stripGitSuffix r ++ "/"
                    ++ filename)
            | none => none
          else if jsEndsWith u.hostname "github.io" then
            match ((jsSplit (stripOneEdgeSlash u.pathname) '/').filter
                (fun s => s != "")).head? with
            | some seg => some (u.origin ++ "/" ++ seg ++ "/" ++ filename)
            | none => some (u.origin ++ "/" ++ filename)
          else none

/-- `deriveSceneUrlFromRepo` (SelfHostedSpline.tsx lines 39-72): the
non-variant derivation, identical shape with the fixed file name
`scene.splinecode`. -/
def deriveSceneUrlFromRepo (repoUrl : Option String) : Option String :=
  match repoUrl with
  | none => none
  | some ru =>
    let t := jsTrim ru
    if t = "" then none
    else if jsEndsWith (jsToLower t) ".splinecode" then some t
    else if jsStartsWith t "git@github.com:" then
      match firstTwoNonEmpty
          (jsSplit (stripGitSuffix (dropFirstChars t 15)) '/') with
      | some (o, r) =>
        some ("https://" ++ o ++ ".github.io/" ++ r ++ "/scene.splinecode")
      | none => none
    else
      match parseURL t with
      | none => none
      | some u =>
        if u.hostname = "github.com" then
          match firstTwoNonEmpty (jsSplit (stripOneEdgeSlash u.pathname) '/') with
          | some (o, r) =>
            some ("https://" ++ o ++ ".github.io/" ++ stripGitSuffix r
                  ++ "/scene.splinecode")
          | none => none
        else if jsEndsWith u.hostname "github.io" then
          match ((jsSplit (stripOneEdgeSlash u.pathname) '/').filter
              (fun s => s != "")).head? with
          | some seg => some (u.origin ++ "/" ++ seg ++ "/scene.splinecode")
          | none => some (u.origin ++ "/scene.splinecode")
        else none

/-- The `sceneUrl` memo (SelfHostedSpline.tsx lines 208-211):
`deriveVariantSceneUrlFromRepo(repoUrl, {mobile}) ?? deriveSceneUrlFromRepo(repoUrl)`. -/
def sceneUrlMemo (repoUrl : Option String) (mobile : Bool) : Option String :=
  match deriveVariantSceneUrlFromRepo repoUrl mobile with
  | some v => some v
  | none => deriveSceneUrlFromRepo repoUrl

/-- Claim C4 as stated: a base location whose trimmed form ends in
".splinecode" (case-insensitively) is returned unchanged — the location
string itself — for both variants. -/
def c4Statement : Prop :=
  ∀ s : String, ∀ m : Bool,
    jsEndsWith (jsToLower (jsTrim s)) ".splinecode" = true →
    deriveVariantSceneUrlFromRepo (some s) m = some s

/-! Section: Aspect and zoom computations (claim C7)

`parseAspect` is from src/unnamed/part_004 lines 36-45; the height lock is
from part_000 lines 148-150; the `onLoad` zoom guard is from part_001
lines 250-261.  JS numbers appearing here are decimal literals parsed from
strings, modelled exactly in `ℚ`; a JS number that is NaN or infinite
(`Number.isFinite` false) is modelled as `none`, since only finiteness and
sign are ever consumed. -/

/-- Digit test for the regex classes `\d`. -/
def isDigitC (c : Char) : Bool := c.isDigit

/-- Separator test for the regex class `[\s:\/]`. -/
def isSepC (c : Char) : Bool := c.isWhitespace || c = ':' || c = '/'

/-- Decimal digit-string value. -/
def natOfDigits (l : List Char) : Nat :=
  l.foldl (fun a c => a * 10 + (c.toNat - '0'.toNat)) 0

/-- Parse one `\d+(?:\.\d+)?` group: an integer part, and a fractional
part only when the dot is followed by at least one digit.  Returns the
value and the unconsumed rest. -/
def parseDec (l : List Char) : Option (ℚ × List Char) :=
  if (l.takeWhile isDigitC).isEmpty then none
  else
    match l.dropWhile isDigitC with
    | '.' :: r2 =>
      if (r2.takeWhile isDigitC).isEmpty then
        some ((natOfDigits (l.takeWhile isDigitC) : ℚ), l.dropWhile isDigitC)
      else
        some ((natOfDigits (l.takeWhile isDigitC) : ℚ) +
          (natOfDigits (r2.takeWhile isDigitC) : ℚ) /
            ((10 : ℚ) ^ (r2.takeWhile isDigitC).length),
          r2.dropWhile isDigitC)
    | _ => some ((natOfDigits (l.takeWhile isDigitC) : ℚ), l.dropWhile isDigitC)

/-- Full-string match of `^(\d+(?:\.\d+)?)[\s:\/]+(\d+(?:\.\d+)?)$`,
returning the two captured numbers.  Digits and separators are disjoint
character classes, so greedy matching needs no backtracking. -/
def matchAspect (l : List Char) : Option (ℚ × ℚ) :=
  match parseDec l with
  | none => none
  | some (w, r1) =>
    match r1 with
    | [] => none
    | c :: r2 =>
      if isSepC c then
        match parseDec (r2.dropWhile isSepC) with
        | some (h, r4) => if r4.isEmpty then some (w, h) else none
        | none => none
      else none

/-- Exponent tail of a JS numeric literal: empty, or `[eE][+-]?\d+`
followed by end of input.  Anything else makes the whole literal NaN. -/
def parseExpTail (m : ℚ) (r : List Char) : Option ℚ :=
  match r with
  | [] => some m
  | e :: r2 =>
    if e = 'e' || e = 'E' then
      let signed : Bool × List Char :=
        match r2 with
        | '+' :: r3 => (false, r3)
        | '-' :: r3 => (true, r3)
        | _ => (false, r2)
      let ds := signed.2.takeWhile isDigitC
      if ds.isEmpty then none
      else if (signed.2.dropWhile isDigitC).isEmpty then
        if signed.1 then some (m / (10 : ℚ) ^ natOfDigits ds)
        else some (m * (10 : ℚ) ^ natOfDigits ds)
      else none
    else none

/-- Unsigned part of a JS decimal literal: `Infinity` (non-finite, hence
`none` here), or `\d+(\.\d*)?` or `\.\d+`, with an optional exponent. -/
def parseUnsigned (l : List Char) : Option ℚ :=
  if l = "Infinity".data then none
  else
    let ip := l.takeWhile isDigitC
    let r1 := l.dropWhile isDigitC
    match r1 with
    | '.' :: r2 =>
      let fp := r2.takeWhile isDigitC
      if ip.isEmpty && fp.isEmpty then none
      else
        parseExpTail
          ((natOfDigits ip : ℚ) + (natOfDigits fp : ℚ) / ((10 : ℚ) ^ fp.length))
          (r2.dropWhile isDigitC)
    | _ => if ip.isEmpty then none else parseExpTail (natOfDigits ip : ℚ) r1

/-- Digits of the given base, or `none` when some character is out of
range or the list is empty. -/
def radixVal (base : Nat) (l : List Char) : Option ℚ :=
  if l.isEmpty then none
  else
    l.foldl
      (fun acc c =>
        match acc with
        | none => none
        | some a =>
          let d :=
            if c.isDigit then some (c.toNat - '0'.toNat)
            else if 'a' ≤ c ∧ c ≤ 'f' then some (c.toNat - 'a'.toNat + 10)
            else if 'A' ≤ c ∧ c ≤ 'F' then some (c.toNat - 'A'.toNat + 10)
            else none
          match d with
          | some d => if d < base then some (a * base + d) else none
          | none => none)
      (some (0 : Nat))
    |>.map (fun n => (n : ℚ))

/-- Modelled from JS `Number(s)` on an already-trimmed string: `""` is 0,
`0x`/`0o`/`0b` literals take no sign, otherwise an optional sign precedes
a decimal literal.  NaN and the infinities are collapsed to `none`. -/
def jsNumber (s : String) : Option ℚ :=
  match s.data with
  | [] => some 0
  | '0' :: 'x' :: r => radixVal 16 r
  | '0' :: 'X' :: r => radixVal 16 r
  | '0' :: 'o' :: r => radixVal 8 r
  | '0' :: 'O' :: r => radixVal 8 r
  | '0' :: 'b' :: r => radixVal 2 r
  | '0' :: 'B' :: r => radixVal 2 r
  | '+' :: r => parseUnsigned r
  | '-' :: r => (parseUnsigned r).map (fun q => -q)
  | l => parseUnsigned l

/-- `parseAspect` (part_004 lines 36-45): match `w:h` (also space- or
slash-separated); on a match return `w / h` when `h > 0`, else the 16/9
default; otherwise accept `Number(s)` when finite and positive, else the
16/9 default. -/
def parseAspect (input : String) : ℚ :=
  match matchAspect (jsTrim input).data with
  | some (w, h) => if 0 < h then w / h else 16 / 9
  | none =>
    match jsNumber (jsTrim input) with
    | some n => if 0 < n then n else 16 / 9
    | none => 16 / 9

/-- JS `Math.round` on a rational: floor of `x + 1/2`. -/
def jsRound (q : ℚ) : ℤ := ⌊q + 1 / 2⌋

/-- The height lock (part_000 lines 148-150):
`aspectWidth > 0 ? Math.round(widthPx * (aspectHeight / aspectWidth))
: Math.round(widthPx * (9 / 16))`. -/
def lockedHeightPx (aspectWidth aspectHeight widthPx : ℚ) : ℤ :=
  if 0 < aspectWidth then jsRound (widthPx * (aspectHeight / aspectWidth))
  else jsRound (widthPx * (9 / 16))

/-- The `onLoad` zoom guard (part_001 lines 253-261):
`if (Number.isFinite(zoomForBp) && zoomForBp > 0) app.setZoom(zoomForBp)`.
Returns the zoom actually applied, `none` when `setZoom` is not called. -/
def applySetZoom (zoomForBp : Option ℚ) : Option ℚ :=
  match zoomForBp with
  | some z => if 0 < z then some z else none
  | none => none

/-- Claim C7's parseAspect clause as stated: the parsed ratio is always
positive. -/
def c7AspectPositive : Prop := ∀ s : String, 0 < parseAspect s

/-! Section: Viewer handle lifecycle (claim C8; src/unnamed/part_005)

The component keeps the `<spline-viewer>` element in `viewerElRef` and
manages it through effects: a mount effect (lines 401-430) that creates
the element when the component is mounted, the loader has resolved, the
box is renderable and no remount cooldown is pending; a collapse effect
(lines 433-438) that tears the viewer down and blocks remounts for
`ZERO_SIZE_REMOUNT_COOLDOWN_MS = 800`; an unmount cleanup (lines 440-444);
and a URL effect (lines 447-452) that updates the `url` attribute in
place.  Effects run in declaration order.  Times are in milliseconds. -/

/-- Observable operations on the viewer element and its ref. -/
inductive VAct
  | dispose
  | remove
  | clearRef
  | create (u : String)
  | setUrlAttr (u : String)
deriving DecidableEq, Repr

/-- Component state: the mounted element (carrying its `url` attribute),
the measured bounds, the `mounted`/`viewerReady` flags, the remount
cooldown deadline, the current `gitHubUrl` prop, and the action log. -/
structure VSt where
  viewer : Option String
  width : Nat
  height : Nat
  mounted : Bool
  viewerReady : Bool
  blockedUntil : Nat
  curUrl : String
  log : List VAct
deriving DecidableEq, Repr

/-- `bounds.width >= MIN_RENDER_SIZE && bounds.height >= MIN_RENDER_SIZE`
with `MIN_RENDER_SIZE = 2` (line 277). -/
def hasRenderableSize (s : VSt) : Bool :=
  decide (2 ≤ s.width) && decide (2 ≤ s.height)

/-- `tearDownViewer` (lines 314-324): dispose, remove from the DOM, clear
the ref; a no-op when no viewer is mounted. -/
def tearDownViewer (s : VSt) : VSt :=
  match s.viewer with
  | none => s
  | some _ => { s with viewer := none,
                       log := s.log ++ [.dispose, .remove, .clearRef] }

/-- The mount effect body (lines 401-430): bail out unless mounted, ready
and renderable; bail out during the cooldown; bail out when a viewer
already exists; otherwise create the element with the current URL. -/
def tryMount (now : Nat) (s : VSt) : VSt :=
  if s.mounted && s.viewerReady && hasRenderableSize s then
    if now < s.blockedUntil then s
    else
      match s.viewer with
      | some _ => s
      | none => { s with viewer := some s.curUrl,
                         log := s.log ++ [.create s.curUrl] }
  else s

/-- The collapse effect body (lines 433-438): when the box is not
renderable and a viewer exists, tear it down and extend the cooldown to
`now + 800` (`blockViewerMounts` takes the max with the current deadline). -/
def collapseEffect (now : Nat) (s : VSt) : VSt :=
  if hasRenderableSize s then s
  else
    match s.viewer with
    | none => s
    | some _ =>
      let s' := tearDownViewer s
      { s' with blockedUntil := max s'.blockedUntil (now + 800) }

/-- External occurrences the component reacts to. -/
inductive VEv
  | resize (w h now : Nat)
  | urlChange (u : String) (now : Nat)
  | readySet (ok : Bool) (now : Nat)
  | compMounted (now : Nat)
  | cooldownTick (now : Nat)
  | contextLost
  | unmount
deriving DecidableEq, Repr

/-- One occurrence: a resize re-runs the mount effect then the collapse
effect; a prop URL change re-runs the mount effect then the URL effect,
which updates the attribute in place when a viewer exists; the ready and
mounted flags and the cooldown timer re-run the mount effect; WebGL
context loss and unmount tear the viewer down. -/
def stepV (e : VEv) (s : VSt) : VSt :=
  match e with
  | .resize w h now =>
    collapseEffect now (tryMount now { s with width := w, height := h })
  | .urlChange u now =>
    let s2 := tryMount now { s with curUrl := u }
    match s2.viewer with
    | some cur =>
      if cur != u then { s2 with viewer := some u,
                                 log := s2.log ++ [.setUrlAttr u] }
      else s2
    | none => s2
  | .readySet ok now => tryMount now { s with viewerReady := ok }
  | .compMounted now => tryMount now { s with mounted := true }
  | .cooldownTick now => tryMount now s
  | .contextLost => tearDownViewer s
  | .unmount => tearDownViewer s

/-- Claim C8's asset-change clause as stated: whenever a viewer is mounted
and the scene URL changes, the viewer is disposed. -/
def c8UrlChangeDisposes : Prop :=
  ∀ s : VSt, ∀ u : String, ∀ now : Nat,
    s.viewer ≠ none → VAct.dispose ∈ (stepV (.urlChange u now) s).log

/-! Section: Viewer-script singleton loaders (claim C9)

`ensureSplineViewer` (src/unnamed/part_005 lines 188-253) and
`loadSplineViewer` (src/spline-loader.js lines 13-39) coordinate a single
load of the viewer web component.  Only the call coordination is embedded:
the async body (dynamic import or script-tag injection and the resulting
settle) is abstracted to "one load attempt begins", counted in
`loadsStarted`, with its completion and the owner's `finally` modelled as
separate steps.  An async function runs synchronously up to its first
`await`, so the guard clauses and the assignment of the shared promise are
atomic. -/

/-- What one call to the ensure-loaded operation returns: an immediately
resolved result, the shared in-flight promise (identified by number), or a
freshly created promise the caller now owns. -/
inductive ERet
  | immediate
  | joined (p : Nat)
  | owner (p : Nat)
deriving DecidableEq, Repr

/-- Module-level state of `ensureSplineViewer`: whether
`window.__splineViewerLoaded || customElements.get("spline-viewer")` holds,
the shared `viewerLoaderPromise`, a fresh-promise counter, and how many
load attempts have begun. -/
structure ESt where
  loaded : Bool
  inflight : Option Nat
  nextId : Nat
  loadsStarted : Nat
deriving DecidableEq, Repr

/-- The synchronous head of `ensureSplineViewer` (lines 191-195, 248-252):
`if (isReady()) return true; if (viewerLoaderPromise) return
viewerLoaderPromise; viewerLoaderPromise = (async () => ...)()`. -/
def ensureSplineViewerCall (s : ESt) : ERet × ESt :=
  if s.loaded then (.immediate, s)
  else
    match s.inflight with
    | some p => (.joined p, s)
    | none =>
      (.owner s.nextId,
       { s with inflight := some s.nextId, nextId := s.nextId + 1,
                loadsStarted := s.loadsStarted + 1 })

/-- Later steps of a load's life: the body settles (setting
`__splineViewerLoaded` on success), and the owning caller's `finally`
clears `viewerLoaderPromise`. -/
inductive EOp
  | call
  | settle (ok : Bool)
  | ownerFin
deriving DecidableEq, Repr

/-- Process-wide transition of the ensure-loaded state. -/
def stepE (op : EOp) (s : ESt) : ESt :=
  match op with
  | .call => (ensureSplineViewerCall s).2
  | .settle ok => { s with loaded := s.loaded || ok }
  | .ownerFin => { s with inflight := none }

/-- Module-level state of `loadSplineViewer` in spline-loader.js:
`customElements.get("spline-viewer")` and `state.loading`. -/
structure LJSt where
  defined : Bool
  loading : Option Nat
  nextId : Nat
  loadsStarted : Nat
deriving DecidableEq, Repr

/-- The synchronous head of `loadSplineViewer` (lines 14-22, 38):
return immediately when the element is defined, return the in-flight
`state.loading` when present, otherwise start the load and publish it. -/
def loadSplineViewerCall (s : LJSt) : ERet × LJSt :=
  if s.defined then (.immediate, s)
  else
    match s.loading with
    | some p => (.joined p, s)
    | none =>
      (.owner s.nextId,
       { s with loading := some s.nextId, nextId := s.nextId + 1,
                loadsStarted := s.loadsStarted + 1 })


/-! Section: Theorems.  Each claim of the specification is settled below;
helper lemmas come first, then one theorem per claim (with its witness or
counterexample where required). -/

theorem jsOr_empty_left (b : String) : jsOr "" b = b := by simp [jsOr]

theorem jsOr_ne_empty (a b : String) (ha : a ≠ "") : jsOr a b = a := by
  simp [jsOr, ha]

/-- Claim C3, counterexample: the classifier does not break ties toward the
larger bucket — at width exactly 640 it yields `mobile`, not `tablet`. -/
theorem c3_counterexample : ¬ c3TieTowardLarger := by
  intro h
  exact absurd h.1 (by decide)

/-- Claim C3 (amended): for every measured width the classifier yields
exactly one of mobile/tablet/desktop by comparing against the ordered
thresholds 640 and 1024 with `<=` semantics, so a tie at a threshold is
broken toward the smaller bucket (640 is mobile, 1024 is tablet). -/
theorem c3_breakpoint_classifier (w : ℚ) :
    (setBp w = Bp.mobile ↔ w ≤ 640) ∧
    (setBp w = Bp.tablet ↔ 640 < w ∧ w ≤ 1024) ∧
    (setBp w = Bp.desktop ↔ 1024 < w) := by
  unfold setBp
  split_ifs with h1 h2
  all_goals refine ⟨?_, ?_, ?_⟩
  all_goals simp_all
  all_goals linarith

theorem dropWhile_head_not (p : Char → Bool) (l : List Char) (c : Char)
    (h : (l.dropWhile p).head? = some c) : p c = false := by
  have hd := List.head?_dropWhile_not p l
  rw [h] at hd
  exact hd

theorem takeWhile_slashes (l : List Char) :
    l.takeWhile (· = '/') = List.replicate (l.takeWhile (· = '/')).length '/' := by
  rw [List.eq_replicate_iff]
  exact ⟨rfl, fun b hb => by simpa using List.mem_takeWhile_imp hb⟩

/-- Claim C10: the candidate URL join `ghUrl` equals the base with all
trailing slashes removed, then exactly one slash, then the file name with
all leading slashes removed — so the junction carries exactly one slash
(the stripped base never ends with one, the stripped file never starts
with one). -/
theorem c10_candidate_url_join (b f : String) :
    ∃ b' f' : List Char, ∃ k m : Nat,
      b.data = b' ++ List.replicate k '/' ∧
      f.data = List.replicate m '/' ++ f' ∧
      (∀ c, b'.getLast? = some c → c ≠ '/') ∧
      (∀ c, f'.head? = some c → c ≠ '/') ∧
      (ghUrlJoin b f).data = b' ++ '/' :: f' := by
  refine ⟨(b.data.reverse.dropWhile (· = '/')).reverse,
          f.data.dropWhile (· = '/'),
          (b.data.reverse.takeWhile (· = '/')).length,
          (f.data.takeWhile (· = '/')).length, ?_, ?_, ?_, ?_, ?_⟩
  · conv_lhs =>
      rw [← List.reverse_reverse b.data,
        ← List.takeWhile_append_dropWhile (fun c => decide (c = '/')) b.data.reverse]
    rw [List.reverse_append, takeWhile_slashes, List.reverse_replicate]
    simp
  · conv_lhs =>
      rw [← List.takeWhile_append_dropWhile (fun c => decide (c = '/')) f.data]
    rw [takeWhile_slashes]
    simp
  · intro c hc
    rw [List.getLast?_reverse] at hc
    simpa using dropWhile_head_not _ _ _ hc
  · intro c hc
    simpa using dropWhile_head_not _ _ _ hc
  · show (stripTrailingSlashes b ++ "/" ++ stripLeadingSlashes f).data = _
    rw [String.data_append, String.data_append]
    simp [stripTrailingSlashes, stripLeadingSlashes]


/-- Claim C1: the resolver probes the derived GitHub URL first and then the
configured fallback; a single probe succeeds exactly when the HEAD request
returns ok or, failing that, the GET request returns ok; with preflight
enabled the resolved URL is the first candidate whose probe succeeds, and
when none succeeds the run falls back to `ghUrl || splineProdUrl || ""`
with the diagnostic set. -/
theorem c1_resolver_probe_order :
    (∀ o : ProbeOut, probeOk o = (o.headR == some true || o.getR == some true)) ∧
    (∀ gh prod : String, ∀ probe : String → ProbeOut,
      resolveOutcome true gh prod probe =
        match specFirstSuccess gh prod probe with
        | some u => (u, "")
        | none => (jsOr (jsOr gh prod) "", couldNotLoad gh prod)) := by
  constructor
  · rintro ⟨h, g⟩
    rcases h with _ | _ | _ <;> rcases g with _ | _ | _ <;> rfl
  · intro gh prod probe
    unfold resolveOutcome specFirstSuccess candidatesOf
    rcases hg : gh != "" with _ | _ <;>
      rcases hok : probeOk (probe gh) with _ | _ <;>
      rcases hp : prod != "" with _ | _ <;>
      rcases hpok : probeOk (probe prod) with _ | _ <;>
      simp [hg, hok, hp, hpok, List.find?]

/-- Claim C9: both viewer-script loaders are idempotent and
concurrency-safe — once loaded, a call returns immediately with the module
state untouched (no second load attempt, hence no second script); while a
load is in flight, a call returns the very same in-flight promise with the
state untouched; and the loaded flag is never unset by any later step. -/
theorem c9_loader_idempotent :
    (∀ s : ESt, s.loaded = true → ensureSplineViewerCall s = (.immediate, s)) ∧
    (∀ s : ESt, ∀ p : Nat, s.loaded = false → s.inflight = some p →
      ensureSplineViewerCall s = (.joined p, s)) ∧
    (∀ op : EOp, ∀ s : ESt, s.loaded = true → (stepE op s).loaded = true) ∧
    (∀ s : LJSt, s.defined = true → loadSplineViewerCall s = (.immediate, s)) ∧
    (∀ s : LJSt, ∀ p : Nat, s.defined = false → s.loading = some p →
      loadSplineViewerCall s = (.joined p, s)) := by
  refine ⟨?_, ?_, ?_, ?_, ?_⟩
  · intro s h
    simp [ensureSplineViewerCall, h]
  · intro s p h hf
    simp [ensureSplineViewerCall, h, hf]
  · intro op s h
    cases op <;> simp [stepE, ensureSplineViewerCall, h]
  · intro s h
    simp [loadSplineViewerCall, h]
  · intro s p h hf
    simp [loadSplineViewerCall, h, hf]

/-- Witness for `c9_loader_idempotent` at concrete module states. -/
theorem c9_loader_idempotent_witness :
    ensureSplineViewerCall ⟨true, none, 3, 1⟩ = (.immediate, ⟨true, none, 3, 1⟩) ∧
    ensureSplineViewerCall ⟨false, some 7, 8, 1⟩ = (.joined 7, ⟨false, some 7, 8, 1⟩) ∧
    (stepE .ownerFin ⟨true, none, 3, 1⟩).loaded = true ∧
    loadSplineViewerCall ⟨true, none, 2, 1⟩ = (.immediate, ⟨true, none, 2, 1⟩) ∧
    loadSplineViewerCall ⟨false, some 5, 6, 1⟩ = (.joined 5, ⟨false, some 5, 6, 1⟩) :=
  ⟨c9_loader_idempotent.1 ⟨true, none, 3, 1⟩ rfl,
   c9_loader_idempotent.2.1 ⟨false, some 7, 8, 1⟩ 7 rfl rfl,
   c9_loader_idempotent.2.2.1 .ownerFin ⟨true, none, 3, 1⟩ rfl,
   c9_loader_idempotent.2.2.2.1 ⟨true, none, 2, 1⟩ rfl,
   c9_loader_idempotent.2.2.2.2 ⟨false, some 5, 6, 1⟩ 5 rfl rfl⟩


/-- Claim C8, counterexample: with a viewer mounted, a scene-URL change
does not dispose it — the URL effect updates the `url` attribute in place
and the element survives. -/
theorem c8_counterexample : ¬ c8UrlChangeDisposes := by
  intro h
  exact absurd (h ⟨some "a", 100, 100, true, true, 0, "a", []⟩ "b" 5 (by decide))
    (by decide)

/-- Claim C8 (amended): the viewer is disposed (dispose, element removal,
ref clear) on unmount and on a collapse below the minimum renderable size,
the collapse additionally blocking remounts for the 800 ms cooldown and a
mount attempt inside the cooldown creating nothing; a scene-URL change
instead keeps the mounted viewer and rewrites its `url` attribute in
place. -/
theorem c8_viewer_lifecycle (s : VSt) (w h now : Nat) (u v : String) :
    ((stepV .unmount s).viewer = none ∧
      (s.viewer ≠ none →
        (stepV .unmount s).log = s.log ++ [.dispose, .remove, .clearRef])) ∧
    (¬ (2 ≤ w ∧ 2 ≤ h) → s.viewer ≠ none →
      (stepV (.resize w h now) s).viewer = none ∧
      (stepV (.resize w h now) s).log = s.log ++ [.dispose, .remove, .clearRef] ∧
      now + 800 ≤ (stepV (.resize w h now) s).blockedUntil) ∧
    (now < s.blockedUntil →
      (stepV (.cooldownTick now) s).viewer = s.viewer ∧
      (stepV (.cooldownTick now) s).log = s.log) ∧
    (s.viewer = some v →
      (stepV (.urlChange u now) s).viewer = some u ∧
      ((stepV (.urlChange u now) s).log = s.log ∨
        (stepV (.urlChange u now) s).log = s.log ++ [.setUrlAttr u])) := by
  refine ⟨⟨?_, ?_⟩, ?_, ?_, ?_⟩
  · cases hv : s.viewer <;> simp [stepV, tearDownViewer, hv]
  · intro hv
    cases hv2 : s.viewer with
    | none => exact absurd hv2 hv
    | some x => simp [stepV, tearDownViewer, hv2]
  · intro hwh hv
    cases hv2 : s.viewer with
    | none => exact absurd hv2 hv
    | some x =>
      have hw2 : ¬ (2 ≤ w) ∨ ¬ (2 ≤ h) := by tauto
      rcases hw2 with hw2 | hw2 <;>
        simp [stepV, tryMount, collapseEffect, tearDownViewer, hasRenderableSize,
          hv2, hw2]
  · intro hblk
    have hstep : stepV (.cooldownTick now) s = s := by
      simp only [stepV, tryMount]
      split
      · rfl
      · rfl
    rw [hstep]
    exact ⟨rfl, rfl⟩
  · intro hv
    simp only [stepV]
    have h2 : (tryMount now { s with curUrl := u }).viewer = some v := by
      simp only [tryMount]
      split
      · split
        · exact hv
        · rw [hv]
      · exact hv
    have h3 : (tryMount now { s with curUrl := u }).log = s.log := by
      simp only [tryMount]
      split
      · split
        · rfl
        · rw [hv]
      · rfl
    rw [h2]
    rcases hne : v != u with _ | _
    · have hvu : v = u := by simpa using hne
      simp [hne, h2, h3, hvu]
    · simp [hne, h2, h3]

/-- Witness for `c8_viewer_lifecycle` at a concrete mounted state. -/
theorem c8_viewer_lifecycle_witness :
    (stepV .unmount ⟨some "a", 100, 100, true, true, 0, "a", []⟩).viewer = none ∧
    (stepV (.resize 0 0 10) ⟨some "a", 100, 100, true, true, 0, "a", []⟩).log =
      [VAct.dispose, VAct.remove, VAct.clearRef] ∧
    (stepV (.cooldownTick 10) ⟨none, 100, 100, true, true, 900, "a", []⟩).viewer =
      none ∧
    (stepV (.urlChange "b" 10) ⟨some "a", 100, 100, true, true, 0, "a", []⟩).viewer =
      some "b" := by
  refine ⟨?_, ?_, ?_, ?_⟩
  · exact (c8_viewer_lifecycle ⟨some "a", 100, 100, true, true, 0, "a", []⟩
      0 0 10 "b" "a").1.1
  · exact ((c8_viewer_lifecycle ⟨some "a", 100, 100, true, true, 0, "a", []⟩
      0 0 10 "b" "a").2.1 (by omega) (by decide)).2.1
  · exact ((c8_viewer_lifecycle ⟨none, 100, 100, true, true, 900, "a", []⟩
      0 0 10 "b" "a").2.2.1 (by decide)).1
  · exact ((c8_viewer_lifecycle ⟨some "a", 100, 100, true, true, 0, "a", []⟩
      0 0 10 "b" "a").2.2.2 rfl).1


/-- Claim C4, counterexample: a base location whose trimmed form ends in
".splinecode" is not always returned unchanged — with surrounding
whitespace the derivation returns the trimmed string, not the location
itself. -/
theorem c4_counterexample : ¬ c4Statement := by
  intro h
  exact absurd (h " a.splinecode" true (by decide)) (by decide)

/-- Claim C4 (amended): for every base location whose trimmed form ends in
".splinecode" (case-insensitively), both the mobile and the desktop
variant derivation — and the combined scene-URL memo — return the trimmed
location verbatim, substituting no per-breakpoint filename; in particular
the location itself is returned whenever it carries no surrounding
whitespace. -/
theorem c4_direct_asset_passthrough (s : String) (m : Bool)
    (h : jsEndsWith (jsToLower (jsTrim s)) ".splinecode" = true) :
    deriveVariantSceneUrlFromRepo (some s) m = some (jsTrim s) ∧
    deriveSceneUrlFromRepo (some s) = some (jsTrim s) ∧
    sceneUrlMemo (some s) m = some (jsTrim s) := by
  have hne : ¬ (jsTrim s = "") := by
    intro he
    rw [he] at h
    exact absurd h (by decide)
  have h1 : deriveVariantSceneUrlFromRepo (some s) m = some (jsTrim s) := by
    simp only [deriveVariantSceneUrlFromRepo]
    rw [if_neg hne, if_pos h]
  have h2 : deriveSceneUrlFromRepo (some s) = some (jsTrim s) := by
    simp only [deriveSceneUrlFromRepo]
    rw [if_neg hne, if_pos h]
  refine ⟨h1, h2, ?_⟩
  simp only [sceneUrlMemo, h1]

/-- Witness for `c4_direct_asset_passthrough` at a direct asset URL. -/
theorem c4_direct_asset_passthrough_witness :
    deriveVariantSceneUrlFromRepo
        (some "https://mojavestudio.github.io/mojave_ufo/scene.splinecode") true =
      some (jsTrim "https://mojavestudio.github.io/mojave_ufo/scene.splinecode") :=
  (c4_direct_asset_passthrough
    "https://mojavestudio.github.io/mojave_ufo/scene.splinecode" true (by decide)).1


theorem listPrefixSelf (l : List Char) : l.isPrefixOf l = true := by
  induction l with
  | nil => rfl
  | cons a t ih => simp [List.isPrefixOf, ih]

theorem containsList_append_right (p n : List Char) :
    containsList n (p ++ n) = true := by
  induction p with
  | nil =>
    cases n with
    | nil => rfl
    | cons a t =>
      simp only [containsList, List.nil_append, List.tails, List.any_cons]
      rw [listPrefixSelf]
      rfl
  | cons a t ih =>
    simp only [containsList, List.cons_append, List.tails, List.any_cons]
    rw [Bool.or_eq_true]
    exact Or.inr ih

theorem strContains_append (pre x : String) :
    strContains (pre ++ x) x = true := by
  simp only [strContains, String.data_append]
  exact containsList_append_right pre.data x.data

theorem couldNotLoad_ne_empty (gh prod : String) :
    couldNotLoad gh prod ≠ "" := by
  intro h
  have hd := congrArg String.data h
  rw [couldNotLoad, String.data_append] at hd
  simp at hd

/-- Claim C5, counterexample: when both candidates exist and both probes
fail, the diagnostic cites the first candidate (`ghUrl || splineProdUrl`),
not the last-attempted one — the fallback URL does not occur in it. -/
theorem c5_counterexample : ¬ c5NamesLastAttempted := by
  intro h
  have := h "https://g/s" "https://p/s" (fun _ => ⟨some false, some false⟩)
    (by decide) "https://p/s" (by decide)
  exact absurd this (by decide)

/-- Claim C5 (amended): whenever no candidate URL is reachable, the
resolver produces the non-empty diagnostic
`Could not load: <first candidate>` — naming the first-attempted URL when
one exists (else the fallback, else a placeholder) — and the component
renders the fallback message plus that diagnostic instead of a viewer,
never a blank area. -/
theorem c5_unreachable_diagnostic (gh prod fbMsg : String) (inView : Bool)
    (probe : String → ProbeOut)
    (hfail : ∀ c ∈ candidatesOf gh prod, probeOk (probe c) = false) :
    (resolveOutcome true gh prod probe).2 = couldNotLoad gh prod ∧
    (resolveOutcome true gh prod probe).2 ≠ "" ∧
    strContains (resolveOutcome true gh prod probe).2
      (jsOr gh (jsOr prod "(no url)")) = true ∧
    renderView fbMsg (resolveOutcome true gh prod probe).2 inView
      (resolveOutcome true gh prod probe).1 =
      View.errorBox fbMsg (couldNotLoad gh prod) := by
  have hres : resolveOutcome true gh prod probe =
      (jsOr (jsOr gh prod) "", couldNotLoad gh prod) := by
    unfold resolveOutcome
    rcases hg : gh != "" with _ | _
    · rcases hp : prod != "" with _ | _
      · simp [hg, hp]
      · have := hfail prod (by simp [candidatesOf, hg, hp])
        simp [hg, hp, this]
    · have h1 := hfail gh (by simp [candidatesOf, hg])
      rcases hp : prod != "" with _ | _
      · simp [hg, hp, h1]
      · have h2 := hfail prod (by simp [candidatesOf, hp])
        simp [hg, hp, h1, h2]
  rw [hres]
  have hcontains : strContains (couldNotLoad gh prod)
      (jsOr gh (jsOr prod "(no url)")) = true := by
    unfold couldNotLoad
    exact strContains_append "Could not load: " (jsOr gh (jsOr prod "(no url)"))
  have hne := couldNotLoad_ne_empty gh prod
  refine ⟨rfl, hne, hcontains, ?_⟩
  unfold renderView
  rw [if_pos (by simpa using hne)]

/-- Witness for `c5_unreachable_diagnostic` with two unreachable
candidates. -/
theorem c5_unreachable_diagnostic_witness :
    (resolveOutcome true "https://g/s" "https://p/s"
        (fun _ => ⟨some false, none⟩)).2 = couldNotLoad "https://g/s" "https://p/s" ∧
    renderView "msg" (resolveOutcome true "https://g/s" "https://p/s"
        (fun _ => ⟨some false, none⟩)).2 true
      (resolveOutcome true "https://g/s" "https://p/s"
        (fun _ => ⟨some false, none⟩)).1 =
      View.errorBox "msg" (couldNotLoad "https://g/s" "https://p/s") :=
  ⟨(c5_unreachable_diagnostic "https://g/s" "https://p/s" "msg" true
      (fun _ => ⟨some false, none⟩) (by decide)).1,
   (c5_unreachable_diagnostic "https://g/s" "https://p/s" "msg" true
      (fun _ => ⟨some false, none⟩) (by decide)).2.2.2⟩


theorem parseDec_nonneg (l : List Char) (q : ℚ) (r : List Char)
    (h : parseDec l = some (q, r)) : 0 ≤ q := by
  unfold parseDec at h
  repeat' split at h
  all_goals
    first
    | exact Option.noConfusion h
    | (rw [Option.some.injEq, Prod.mk.injEq] at h
       rw [← h.1]
       positivity)

theorem matchAspect_nonneg (l : List Char) (w h : ℚ)
    (hm : matchAspect l = some (w, h)) : 0 ≤ w ∧ 0 ≤ h := by
  unfold matchAspect at hm
  split at hm
  · exact Option.noConfusion hm
  · rename_i w' r1 hw
    split at hm
    · exact Option.noConfusion hm
    · rename_i c r2
      split at hm
      · split at hm
        · rename_i h' r4 hh
          split at hm
          · rw [Option.some.injEq, Prod.mk.injEq] at hm
            rw [← hm.1, ← hm.2]
            exact ⟨parseDec_nonneg _ _ _ hw, parseDec_nonneg _ _ _ hh⟩
          · exact Option.noConfusion hm
        · exact Option.noConfusion hm
      · exact Option.noConfusion hm

/-- Claim C7, counterexample: `parseAspect` does not always return a
positive ratio — `"0:9"` matches the `w:h` pattern with a positive
denominator and yields the ratio 0. -/
theorem c7_counterexample : ¬ c7AspectPositive := by
  intro h
  have h1 : parseAspect "0:9" =
      (natOfDigits ['0'] : ℚ) / (natOfDigits ['9'] : ℚ) := rfl
  have h2 : parseAspect "0:9" = 0 := by
    rw [h1, show natOfDigits ['0'] = 0 from by decide]
    norm_num
  have h3 := h "0:9"
  rw [h2] at h3
  exact lt_irrefl 0 h3

/-- Claim C7 (amended): the zoom/aspect computation performs no division
by zero — every division is guarded by a positivity test on its
denominator — and `parseAspect` always returns a nonnegative finite ratio
(zero is possible exactly when a matched `w:h` pattern has numerator 0),
falling back to 16/9 on invalid or zero-denominator input; the height lock
falls back to the 9/16 default whenever `aspectWidth` is not positive; and
zoom is applied only when it is a finite positive number. -/
theorem c7_zoom_aspect_safety :
    (∀ s : String, 0 ≤ parseAspect s) ∧
    (∀ s : String, ∀ w h : ℚ, matchAspect (jsTrim s).data = some (w, h) →
      ¬ 0 < h → parseAspect s = 16 / 9) ∧
    (∀ aw ah wpx : ℚ, ¬ 0 < aw →
      lockedHeightPx aw ah wpx = jsRound (wpx * (9 / 16))) ∧
    (∀ oz : Option ℚ, ∀ z : ℚ, applySetZoom oz = some z → 0 < z ∧ oz = some z) := by
  refine ⟨?_, ?_, ?_, ?_⟩
  · intro s
    unfold parseAspect
    split
    · rename_i w' h' hm
      split
      · rename_i hpos
        exact div_nonneg (matchAspect_nonneg _ _ _ hm).1 (le_of_lt hpos)
      · norm_num
    · split
      · rename_i n' hn
        split
        · rename_i hpos
          exact le_of_lt hpos
        · norm_num
      · norm_num
  · intro s w h hm hh
    unfold parseAspect
    rw [hm]
    dsimp only
    rw [if_neg hh]
  · intro aw ah wpx haw
    unfold lockedHeightPx
    rw [if_neg haw]
  · intro oz z hz
    cases oz with
    | none => exact Option.noConfusion hz
    | some z' =>
      simp only [applySetZoom] at hz
      by_cases h0 : 0 < z'
      · rw [if_pos h0, Option.some.injEq] at hz
        subst hz
        exact ⟨h0, rfl⟩
      · rw [if_neg h0] at hz
        exact Option.noConfusion hz

/-- Witness for `c7_zoom_aspect_safety` at concrete inputs. -/
theorem c7_zoom_aspect_safety_witness :
    (0 : ℚ) ≤ parseAspect "16:9" ∧
    parseAspect "3:0" = 16 / 9 ∧
    lockedHeightPx 0 9 320 = jsRound (320 * (9 / 16)) ∧
    (0 : ℚ) < 2 ∧ (some (2 : ℚ) : Option ℚ) = some 2 :=
  ⟨c7_zoom_aspect_safety.1 "16:9",
   c7_zoom_aspect_safety.2.1 "3:0" (natOfDigits ['3']) (natOfDigits ['0']) rfl
     (by rw [show natOfDigits ['0'] = 0 from by decide]; norm_num),
   c7_zoom_aspect_safety.2.2.1 0 9 320 (by norm_num),
   c7_zoom_aspect_safety.2.2.2 (some 2) 2 (by norm_num [applySetZoom])⟩


theorem noMark_readyOk (l : List Act) (h : noMark l = true) : readyOk l = true := by
  induction l with
  | nil => rfl
  | cons a t ih =>
    cases a <;> simp_all [readyOk, noMark]

theorem renderFirst_readyOk (l : List Act) (h : renderFirst l = true) :
    readyOk l = true := by
  induction l with
  | nil => exact absurd h (by simp [renderFirst])
  | cons a t ih =>
    cases a <;> simp_all [readyOk, renderFirst]

theorem noMark_append (l x : List Act) (h : noMark l = true) :
    readyOk (l ++ x) = readyOk x ∧ renderFirst (l ++ x) = renderFirst x := by
  induction l with
  | nil => exact ⟨rfl, rfl⟩
  | cons a t ih =>
    simp only [noMark, List.all_cons, Bool.and_eq_true] at h
    have ht := ih h.2
    cases a <;> simp_all [readyOk, renderFirst, noMark]

theorem renderFirst_append (l x : List Act) (h : renderFirst l = true) :
    readyOk (l ++ x) = true ∧ renderFirst (l ++ x) = true := by
  induction l with
  | nil => exact absurd h (by simp [renderFirst])
  | cons a t ih =>
    cases a <;> simp_all [readyOk, renderFirst]

theorem readyOk_split (l : List Act) (h : readyOk l = true) :
    noMark l = true ∨ renderFirst l = true := by
  induction l with
  | nil => exact Or.inl rfl
  | cons a t ih =>
    cases a <;> simp_all [readyOk, renderFirst, noMark]

theorem readyOk_append_render (l x : List Act) (h : readyOk l = true)
    (hx : renderFirst x = true) :
    readyOk (l ++ x) = true ∧ renderFirst (l ++ x) = true := by
  rcases readyOk_split l h with hl | hl
  · rw [(noMark_append l x hl).1, (noMark_append l x hl).2]
    exact ⟨renderFirst_readyOk x hx, hx⟩
  · exact renderFirst_append l x hl

theorem readyOk_append_noMark (l x : List Act) (h : readyOk l = true)
    (hx : noMark x = true) : readyOk (l ++ x) = true := by
  rcases readyOk_split l h with hl | hl
  · rw [(noMark_append l x hl).1]
    exact noMark_readyOk x hx
  · exact (renderFirst_append l x hl).1


theorem runCont_inv (p : RParams) (big : Bool) (c : Cont) (s : RSt)
    (h1 : readyOk s.log = true)
    (h2 : (c = Cont.raf2 ∨ Cont.raf2 ∈ s.queue) → renderFirst s.log = true) :
    readyOk (runCont p big c s).log = true ∧
    (Cont.raf2 ∈ (runCont p big c s).queue →
      renderFirst (runCont p big c s).log = true) ∧
    (renderFirst s.log = true → renderFirst (runCont p big c s).log = true) := by
  cases c with
  | waitSize =>
    refine ⟨h1, ?_, fun h => h⟩
    intro hm
    simp only [runCont, List.mem_append] at hm
    rcases hm with hm | hm
    · exact h2 (Or.inr hm)
    · rcases hb : big with _ | _ <;> rw [hb] at hm <;> simp at hm
  | startSeq =>
    have hx := readyOk_append_render s.log [.pause, .setTime0, .render] h1 rfl
    exact ⟨hx.1, fun _ => hx.2, fun _ => hx.2⟩
  | raf1 =>
    have hx := readyOk_append_render s.log [.setTime0, .render] h1 rfl
    exact ⟨hx.1, fun _ => hx.2, fun _ => hx.2⟩
  | raf2 =>
    have hrf : renderFirst s.log = true := h2 (Or.inl rfl)
    simp only [runCont, revealSafelyM]
    by_cases hd : s.done = true
    · rw [if_pos hd]
      exact ⟨h1, fun _ => hrf, fun h => h⟩
    · rw [if_neg hd]
      have hx := renderFirst_append s.log [.setReady] hrf
      exact ⟨hx.1, fun _ => hx.2, fun _ => hx.2⟩
  | raf3 => exact ⟨h1, fun hm => h2 (Or.inr hm), fun h => h⟩
  | guardC n =>
    cases n with
    | zero => exact ⟨h1, fun hm => h2 (Or.inr hm), fun h => h⟩
    | succ m =>
      have hx := readyOk_append_render s.log [.pause, .setTime0, .render] h1 rfl
      exact ⟨hx.1, fun _ => hx.2, fun _ => hx.2⟩
  | holdC n =>
    cases n with
    | zero => exact ⟨h1, fun hm => h2 (Or.inr hm), fun h => h⟩
    | succ m =>
      refine ⟨readyOk_append_noMark s.log [.setTime0] h1 rfl, ?_, ?_⟩
      · intro hm
        simp only [runCont, List.mem_append] at hm
        rcases hm with hm | hm
        · exact (renderFirst_append s.log [.setTime0] (h2 (Or.inr hm))).2
        · simp at hm
      · intro h
        exact (renderFirst_append s.log [.setTime0] h).2

theorem runConts_inv (p : RParams) (big : Bool) (rem : List Cont) :
    ∀ s : RSt, readyOk s.log = true →
    ((Cont.raf2 ∈ rem ∨ Cont.raf2 ∈ s.queue) → renderFirst s.log = true) →
    readyOk (runConts p big rem s).log = true ∧
    (Cont.raf2 ∈ (runConts p big rem s).queue →
      renderFirst (runConts p big rem s).log = true) := by
  induction rem with
  | nil =>
    intro s h1 h2
    exact ⟨h1, fun hm => h2 (Or.inr hm)⟩
  | cons c cs ih =>
    intro s h1 h2
    have hc := runCont_inv p big c s h1 (fun hor => by
      rcases hor with hce | hin
      · subst hce
        exact h2 (Or.inl (List.mem_cons_self _ _))
      · exact h2 (Or.inr hin))
    refine ih (runCont p big c s) hc.1 ?_
    intro hor
    rcases hor with hin | hin
    · exact hc.2.2 (h2 (Or.inl (List.mem_cons_of_mem c hin)))
    · exact hc.2.1 hin

theorem stepR_inv (p : RParams) (e : REv) (s : RSt)
    (he : notTimeoutEv e = true)
    (h1 : readyOk s.log = true)
    (h2 : Cont.raf2 ∈ s.queue → renderFirst s.log = true) :
    readyOk (stepR p e s).log = true ∧
    (Cont.raf2 ∈ (stepR p e s).queue → renderFirst (stepR p e s).log = true) := by
  cases e with
  | load big =>
    simp only [stepR, onLoadAnyM]
    by_cases hh : s.handled = true
    · rw [if_pos hh]
      exact ⟨h1, h2⟩
    · rw [if_neg hh]
      refine ⟨h1, ?_⟩
      intro hm
      simp only [List.mem_append] at hm
      rcases hm with hm | hm
      · exact h2 hm
      · rcases hb : big with _ | _ <;> rw [hb] at hm <;> simp at hm
  | timeout big => exact absurd he (by simp [notTimeoutEv])
  | frame big =>
    exact runConts_inv p big s.queue { s with queue := [] } h1
      (fun hor => by
        rcases hor with hin | hin
        · exact h2 hin
        · simp at hin)
  | timerFire =>
    simp only [stepR]
    by_cases ht : s.timerSet = true
    · rw [if_pos ht]
      refine ⟨readyOk_append_noMark s.log [.play, .setTime0] h1 rfl, ?_⟩
      intro hm
      simp only [List.mem_append] at hm
      rcases hm with hm | hm
      · have := List.mem_filter.1 hm
        exact (renderFirst_append s.log [.play, .setTime0] (h2 this.1)).2
      · simp at hm
    · rw [if_neg ht]
      exact ⟨h1, h2⟩

theorem runReveal_inv (p : RParams) (evs : List REv)
    (hno : evs.all notTimeoutEv = true) :
    readyOk (runReveal p evs).log = true ∧
    (Cont.raf2 ∈ (runReveal p evs).queue →
      renderFirst (runReveal p evs).log = true) := by
  suffices hgen : ∀ l : List REv, ∀ s : RSt, l.all notTimeoutEv = true →
      readyOk s.log = true →
      (Cont.raf2 ∈ s.queue → renderFirst s.log = true) →
      readyOk (l.foldl (fun a e => stepR p e a) s).log = true ∧
      (Cont.raf2 ∈ (l.foldl (fun a e => stepR p e a) s).queue →
        renderFirst (l.foldl (fun a e => stepR p e a) s).log = true) by
    exact hgen evs rInit hno rfl (fun hm => by simp [rInit] at hm)
  intro l
  induction l with
  | nil => intro s _ h1 h2; exact ⟨h1, h2⟩
  | cons e es ih =>
    intro s hall h1 h2
    simp only [List.all_cons, Bool.and_eq_true] at hall
    have hstep := stepR_inv p e s hall.1 h1 h2
    exact ih (stepR p e s) hall.2 hstep.1 hstep.2

theorem revealSafelyM_done (s : RSt) : (revealSafelyM s).done = true := by
  unfold revealSafelyM
  by_cases hd : s.done = true
  · rw [if_pos hd]
    exact hd
  · rw [if_neg hd]

theorem runCont_done_mono (p : RParams) (big : Bool) (c : Cont) (s : RSt)
    (h : s.done = true) : (runCont p big c s).done = true := by
  cases c with
  | raf2 => simp only [runCont, revealSafelyM, h, if_pos rfl]; exact h
  | guardC n => cases n <;> exact h
  | holdC n => cases n <;> exact h
  | waitSize => exact h
  | startSeq => exact h
  | raf1 => exact h
  | raf3 => exact h

theorem runConts_done_mono (p : RParams) (big : Bool) (rem : List Cont) :
    ∀ s : RSt, s.done = true → (runConts p big rem s).done = true := by
  induction rem with
  | nil => intro s h; exact h
  | cons c cs ih =>
    intro s h
    exact ih (runCont p big c s) (runCont_done_mono p big c s h)

theorem stepR_done_mono (p : RParams) (e : REv) (s : RSt)
    (h : s.done = true) : (stepR p e s).done = true := by
  cases e with
  | load big =>
    simp only [stepR, onLoadAnyM]
    by_cases hh : s.handled = true
    · rw [if_pos hh]
      exact h
    · rw [if_neg hh]
      exact h
  | timeout big =>
    exact revealSafelyM_done _
  | frame big =>
    exact runConts_done_mono p big s.queue { s with queue := [] } h
  | timerFire =>
    simp only [stepR]
    by_cases ht : s.timerSet = true
    · rw [if_pos ht]
      exact h
    · rw [if_neg ht]
      exact h

theorem foldl_done_mono (p : RParams) (l : List REv) :
    ∀ s : RSt, s.done = true →
      (l.foldl (fun a e => stepR p e a) s).done = true := by
  induction l with
  | nil => intro s h; exact h
  | cons e es ih =>
    intro s h
    exact ih (stepR p e s) (stepR_done_mono p e s h)

/-- Claim C2, counterexample: when the viewer never signals load-complete,
the 4-second fallback timeout sets the ready flag synchronously while the
time-zero render sequence is merely scheduled for a later animation frame
— the ready flag is set with no pause/setTime(0)/render performed. -/
theorem c2_counterexample : ¬ c2Statement := by
  intro h
  exact absurd (h ⟨8, 2⟩ [.timeout false]).1 (by decide)

/-- Claim C2 (amended): in every run of the reveal sequencer, the ready
flag is never set before at least one explicit pause/setTime(0)/render has
been performed unless the fallback timeout fires (the timeout forces ready
immediately, possibly before any render); and once the fallback timeout
(about 4 seconds) fires, the ready flag is always set. -/
theorem c2_reveal_sequencer (p : RParams) (evs : List REv) :
    (evs.all notTimeoutEv = true → readyOk (runReveal p evs).log = true) ∧
    (evs.any isTimeoutEv = true → (runReveal p evs).done = true) := by
  constructor
  · intro hno
    exact (runReveal_inv p evs hno).1
  · intro hsome
    unfold runReveal
    rcases List.any_eq_true.1 hsome with ⟨e, he, htrue⟩
    rcases List.append_of_mem he with ⟨l1, l2, rfl⟩
    rw [List.foldl_append]
    cases e with
    | timeout big =>
      rw [List.foldl_cons]
      exact foldl_done_mono p l2 _ (revealSafelyM_done (onLoadAnyM big _))
    | load big => exact absurd htrue (by simp [isTimeoutEv])
    | frame big => exact absurd htrue (by simp [isTimeoutEv])
    | timerFire => exact absurd htrue (by simp [isTimeoutEv])

/-- Witness for `c2_reveal_sequencer`: a full load-complete trace with no
timeout keeps every `setReady` behind a render, and a timeout trace ends
with the ready flag set. -/
theorem c2_reveal_sequencer_witness :
    readyOk (runReveal ⟨8, 2⟩
      [.load true, .frame true, .frame true, .frame true]).log = true ∧
    (runReveal ⟨8, 2⟩ [.load true, .timeout true]).done = true :=
  ⟨(c2_reveal_sequencer ⟨8, 2⟩
      [.load true, .frame true, .frame true, .frame true]).1 (by decide),
   (c2_reveal_sequencer ⟨8, 2⟩ [.load true, .timeout true]).2 (by decide)⟩


theorem execSeg_cons (i strd : Nat) (cancl : Bool) (a : WAct) (as : List WAct)
    (st : C6St) :
    execSeg i strd cancl (a :: as) st =
      execSeg i strd cancl as
        (if a.guarded && cancl then st
         else
           { st with
             resolvedUrl := if a.field = .resolved then a.value else st.resolvedUrl
             errorText := if a.field = .error then a.value else st.errorText
             hist := st.hist ++ [⟨i, strd, a⟩] }) := rfl

theorem execSeg_frame (i strd : Nat) (cancl : Bool) (acts : List WAct) :
    ∀ st : C6St,
      (execSeg i strd cancl acts st).pc = st.pc ∧
      (execSeg i strd cancl acts st).startedCount = st.startedCount := by
  induction acts with
  | nil => intro st; exact ⟨rfl, rfl⟩
  | cons a as ih =>
    intro st
    rw [execSeg_cons]
    by_cases hg : (a.guarded && cancl) = true
    · rw [if_pos hg]
      exact ih st
    · rw [if_neg hg]
      exact ih _

theorem execSeg_all (i strd : Nat) (cancl : Bool) (acts : List WAct) :
    ∀ st : C6St, st.hist.all entryFresh = true →
      (∀ a ∈ acts, (a.guarded && cancl) = false → strd ≤ i + 1) →
      (execSeg i strd cancl acts st).hist.all entryFresh = true := by
  induction acts with
  | nil =>
    intro st hall _
    exact hall
  | cons a as ih =>
    intro st hall hc
    rw [execSeg_cons]
    by_cases hg : (a.guarded && cancl) = true
    · rw [if_pos hg]
      exact ih st hall (fun b hb hbg => hc b (List.mem_cons_of_mem a hb) hbg)
    · rw [if_neg hg]
      refine ih _ ?_ (fun b hb hbg => hc b (List.mem_cons_of_mem a hb) hbg)
      rw [List.all_append, Bool.and_eq_true]
      refine ⟨hall, ?_⟩
      simp only [List.all_cons, List.all_nil, Bool.and_true]
      exact decide_eq_true
        (hc a (List.mem_cons_self a as) (by simpa using hg))

theorem runSegs_tail_guarded (r : RunSpec) (k : Nat) (hk : 1 ≤ k) :
    ∀ a ∈ (runSegs r).getD k [], a.guarded = true := by
  intro a ha
  rcases k with _ | k
  · omega
  unfold runSegs at ha
  split_ifs at ha <;>
    rcases k with _ | _ | k <;>
    simp [List.getD] at ha <;>
    first
    | (rcases ha with ha | ha <;> subst ha <;> rfl)
    | (subst ha; rfl)

theorem stepC6_inv (rs : List RunSpec) (c : Nat) (st : C6St)
    (hall : st.hist.all entryFresh = true)
    (hpc : ∀ j, j < st.startedCount → 1 ≤ st.pc j) :
    (stepC6 rs c st).hist.all entryFresh = true ∧
    (∀ j, j < (stepC6 rs c st).startedCount → 1 ≤ (stepC6 rs c st).pc j) := by
  unfold stepC6
  split_ifs with h1 h2 h3
  · constructor
    · exact execSeg_all c (c + 1) false _ _ hall (fun a _ _ => le_refl _)
    · intro j hj
      rw [(execSeg_frame c (c + 1) false _ _).2] at hj
      rw [(execSeg_frame c (c + 1) false _ _).1]
      dsimp only at hj ⊢
      by_cases hjc : j = c
      · simp [hjc]
      · simp only [if_neg hjc]
        exact hpc j (by omega)
  · constructor
    · refine execSeg_all c st.startedCount _ _ _ hall ?_
      intro a ha hag
      have hg := runSegs_tail_guarded (rs.getD c default) (st.pc c)
        (hpc c h2) a ha
      rw [hg, Bool.true_and, decide_eq_false_iff_not] at hag
      omega
    · intro j hj
      rw [(execSeg_frame _ _ _ _ _).2] at hj
      rw [(execSeg_frame _ _ _ _ _).1]
      dsimp only at hj ⊢
      by_cases hjc : j = c
      · simp [hjc]
      · simp only [if_neg hjc]
        exact hpc j hj
  · exact ⟨hall, hpc⟩
  · exact ⟨hall, hpc⟩

/-- Claim C6: no write from a stale resolution run ever overwrites a newer
run's state — in every interleaving of effect runs (runs started in mount
order, probe resumptions scheduled arbitrarily), every `setResolvedUrl` or
`setError` that actually executes does so while no younger run has
started: guarded writes are suppressed once the run's `cancelled` flag is
set, and the only unguarded writes (the synchronous resets and the
preflight-disabled write) run atomically at effect start. -/
theorem c6_no_stale_overwrite (rs : List RunSpec) (choices : List Nat) :
    (execC6 rs choices).hist.all entryFresh = true := by
  suffices hgen : ∀ l : List Nat, ∀ st : C6St,
      st.hist.all entryFresh = true →
      (∀ j, j < st.startedCount → 1 ≤ st.pc j) →
      (l.foldl (fun st c => stepC6 rs c st) st).hist.all entryFresh = true ∧
      (∀ j, j < (l.foldl (fun st c => stepC6 rs c st) st).startedCount →
        1 ≤ (l.foldl (fun st c => stepC6 rs c st) st).pc j) by
    exact (hgen choices c6Init rfl (fun j hj => ((Nat.not_lt_zero j) hj).elim)).1
  intro l
  induction l with
  | nil =>
    intro st hall hpc
    exact ⟨hall, hpc⟩
  | cons c cs ih =>
    intro st hall hpc
    have hstep := stepC6_inv rs c st hall hpc
    exact ih (stepC6 rs c st) hstep.1 hstep.2


end MojaveUfo
